import Mathlib

set_option autoImplicit false

/-!
Shallow embedding of the `mega_data_factory` repository pieces that the
verified claims are about:

* `ParquetDataWriter._extract_partition_key`, the partition-key sanitization
  and the partition grouping in `ParquetDataWriter.write` / `_write_partition`
  (src/mega_data_factory/writers/parquet_writer.py);
* `MetricsReporter.__init__`, `load_metrics`, `_generate_html` and
  `_generate_simple_html` (src/mega_data_factory/framework/metrics/reporter.py).

Python values that can appear in a record are modelled by the inductive
`PyVal`; Python `dict[str, Any]` is an association list.  The two library
functions the extractor delegates to — `json.loads` and `str.isalnum` — are
external to the repository, so they enter the model as parameters
(`loads : String → Option PyVal`, `none` meaning `json.JSONDecodeError`;
`alnum : Char → Bool`); every theorem quantifies over them.  Exceptions that
the Python code can raise and catch are made explicit with `Except PyExc`.
-/

/-- A Python value as it can occur in a record handled by the writer.
`none` is Python `None`.  Floats do not occur in any claim and are omitted. -/
inductive PyVal : Type where
  | none : PyVal
  | bool (b : Bool) : PyVal
  | int (n : Int) : PyVal
  | str (s : String) : PyVal
  | list (xs : List PyVal) : PyVal
  | dict (entries : List (String × PyVal)) : PyVal

/-- A record (`dict[str, Any]`), modelled as an association list. -/
abbrev Record := List (String × PyVal)

/-- Python `d.get(key)` on a dict: the stored value, or `None` when the key is
absent (an explicitly stored `None` and a missing key are indistinguishable,
exactly as in Python). -/
def dictGet (entries : List (String × PyVal)) (key : String) : PyVal :=
  match entries.find? (fun kv => decide (kv.1 = key)) with
  | Option.some kv => kv.2
  | Option.none => PyVal.none

/-- Is this value Python `None`? -/
def PyVal.isNone : PyVal → Bool
  | PyVal.none => true
  | _ => false

/-- Python truthiness of a value (`if value:`). -/
def pyTruthy : PyVal → Bool
  | PyVal.none => false
  | PyVal.bool b => b
  | PyVal.int n => decide (n ≠ 0)
  | PyVal.str s => !s.isEmpty
  | PyVal.list xs => !xs.isEmpty
  | PyVal.dict d => !d.isEmpty

mutual

/-- Python `str(value)`.  For containers this is Python's `repr`
(`\x7b`/`\x7d` braces for dicts, brackets for lists, quoted strings);
escaping of quotes inside strings is not modelled (no claim touches it). -/
def pyStr : PyVal → String
  | PyVal.none => "None"
  | PyVal.bool true => "True"
  | PyVal.bool false => "False"
  | PyVal.int n => toString n
  | PyVal.str s => s
  | PyVal.list xs => "[" ++ pyReprList xs ++ "]"
  | PyVal.dict d => "\x7b" ++ pyReprDict d ++ "\x7d"

/-- Python `repr(value)` (differs from `str` only on strings). -/
def pyRepr : PyVal → String
  | PyVal.none => "None"
  | PyVal.bool true => "True"
  | PyVal.bool false => "False"
  | PyVal.int n => toString n
  | PyVal.str s => "\x27" ++ s ++ "\x27"
  | PyVal.list xs => "[" ++ pyReprList xs ++ "]"
  | PyVal.dict d => "\x7b" ++ pyReprDict d ++ "\x7d"

/-- Comma-separated reprs of the elements of a list. -/
def pyReprList : List PyVal → String
  | [] => ""
  | [v] => pyRepr v
  | v :: rest => pyRepr v ++ ", " ++ pyReprList rest

/-- Comma-separated `key: value` reprs of the entries of a dict. -/
def pyReprDict : List (String × PyVal) → String
  | [] => ""
  | [(k, v)] => "\x27" ++ k ++ "\x27: " ++ pyRepr v
  | (k, v) :: rest => "\x27" ++ k ++ "\x27: " ++ pyRepr v ++ ", " ++ pyReprDict rest

end

/-- The exceptions that can be raised inside the `try` block of
`_extract_partition_key` (`json.loads` raises `json.JSONDecodeError`;
`.get` on a parsed non-dict raises `AttributeError`).  Both are named in the
`except` clause of the source. -/
inductive PyExc : Type where
  | jsonDecodeError : PyExc
  | attributeError : PyExc
  deriving DecidableEq

/-- `json.loads(s)` given the external parse oracle `loads`:
raises `JSONDecodeError` exactly when the string does not parse. -/
def json_loads (loads : String → Option PyVal) (s : String) : Except PyExc PyVal :=
  match loads s with
  | Option.some v => Except.ok v
  | Option.none => Except.error PyExc.jsonDecodeError

/-- Python `value.get(part)` on an arbitrary object: dict lookup, or an
`AttributeError` when the object is not a dict (no other `json.loads` result
has a `get` attribute). -/
def attrGet : PyVal → String → Except PyExc PyVal
  | PyVal.dict d, key => Except.ok (dictGet d key)
  | _, _ => Except.error PyExc.attributeError

/-- Python truthiness of an optional string field of the writer
(`self.partition_by`, `self.partition_key_extractor`): `None` and the empty
string are falsy. -/
def optStrTruthy : Option String → Bool
  | Option.none => false
  | Option.some s => !s.isEmpty

/-- The body of the `try` block in `_extract_partition_key`:
`value = json.loads(value)` then `value = value.get(part)`; either statement
may raise. -/
def tryParseGet (loads : String → Option PyVal) (s part : String) : Except PyExc PyVal :=
  match json_loads loads s with
  | Except.error e => Except.error e
  | Except.ok parsed => attrGet parsed part

/-- Worker for `splitDot`: accumulates the current segment (reversed). -/
def splitDotGo : List Char → List Char → List String
  | [], acc => [String.mk acc.reverse]
  | c :: rest, acc =>
    if c = '.' then String.mk acc.reverse :: splitDotGo rest []
    else splitDotGo rest (c :: acc)

/-- Python `s.split(".")`: the segments of `s` between occurrences of `.`
(`""` splits to `[""]`, adjacent dots give empty segments), exactly the
`parts` of `_extract_partition_key`. -/
def splitDot (s : String) : List String :=
  splitDotGo s.data []

/-- The `for part in parts:` loop of `_extract_partition_key` together with
the final `return str(value) if value else "unknown"`.  Each iteration either
returns early (`"unknown"`), or rebinds `value` and continues.  The `try`
block is the `Except`-valued expression being matched; the two `except`
arms are the two `Except.error` patterns. -/
def extractGo (loads : String → Option PyVal) : List String → PyVal → Except PyExc String
  | [], value => Except.ok (if pyTruthy value then pyStr value else "unknown")
  | part :: rest, value =>
    match value with
    | PyVal.dict d =>
      match dictGet d part with
      | PyVal.none => Except.ok "unknown"
      | v => extractGo loads rest v
    | PyVal.str s =>
      match tryParseGet loads s part with
      | Except.error PyExc.jsonDecodeError => Except.ok "unknown"
      | Except.error PyExc.attributeError => Except.ok "unknown"
      | Except.ok PyVal.none => Except.ok "unknown"
      | Except.ok v => extractGo loads rest v
    | _ => Except.ok "unknown"

/-- `ParquetDataWriter._extract_partition_key`.  The writer state enters as
the `partition_by` / `partition_key_extractor` fields; the result is
`Except`-valued so that "never raises" is a provable statement rather than a
by-construction triviality of the embedding. -/
def extract_partition_key (loads : String → Option PyVal)
    (partition_by partition_key_extractor : Option String)
    (record : Record) : Except PyExc String :=
  if !optStrTruthy partition_by then Except.ok "default"
  else if optStrTruthy partition_key_extractor then
    extractGo loads (splitDot (partition_key_extractor.getD "")) (PyVal.dict record)
  else
    match dictGet record (partition_by.getD "") with
    | PyVal.none => Except.ok "unknown"
    | v => Except.ok (pyStr v)

/-- One character of the sanitization in `ParquetDataWriter.write`:
`c if c.isalnum() or c in "-_" else "_"`. -/
def sanitizeChar (alnum : Char → Bool) (c : Char) : Char :=
  if alnum c || c = '-' || c = '_' then c else '_'

/-- `safe_key = "".flatten(c if c.isalnum() or c in "-_" else "_" for c in partition_key)`. -/
def sanitizeKey (alnum : Char → Bool) (partition_key : String) : String :=
  String.mk (partition_key.data.map (sanitizeChar alnum))

/-- The raw partition key of a record, as a plain string.  The `error` arm is
unreachable (theorem `extract_partition_key_total`); its value is irrelevant. -/
def rawKey (loads : String → Option PyVal) (partition_by partition_key_extractor : Option String)
    (record : Record) : String :=
  match extract_partition_key loads partition_by partition_key_extractor record with
  | Except.ok s => s
  | Except.error _ => "unknown"

/-- The sanitized partition key a record is grouped under in `write`. -/
def safeKey (alnum : Char → Bool) (loads : String → Option PyVal)
    (partition_by partition_key_extractor : Option String) (record : Record) : String :=
  sanitizeKey alnum (rawKey loads partition_by partition_key_extractor record)

/-- One loop iteration of the grouping in `write`:
`if safe_key not in partitions: partitions[safe_key] = []` followed by
`partitions[safe_key].append(record)`.  Python dicts preserve insertion
order, so `partitions` is an association list in first-insertion order. -/
def insertGroup (partitions : List (String × List Record)) (safe_key : String)
    (record : Record) : List (String × List Record) :=
  if partitions.any (fun g => decide (g.1 = safe_key)) then
    partitions.map (fun g => if g.1 = safe_key then (g.1, g.2 ++ [record]) else g)
  else partitions ++ [(safe_key, [record])]

/-- The `for record in data:` grouping loop of `write`, threading the
`partitions` dict. -/
def partitionGroupsGo (alnum : Char → Bool) (loads : String → Option PyVal)
    (partition_by partition_key_extractor : Option String) :
    List Record → List (String × List Record) → Except PyExc (List (String × List Record))
  | [], partitions => Except.ok partitions
  | record :: rest, partitions =>
    match extract_partition_key loads partition_by partition_key_extractor record with
    | Except.error e => Except.error e
    | Except.ok partition_key =>
      partitionGroupsGo alnum loads partition_by partition_key_extractor rest
        (insertGroup partitions (sanitizeKey alnum partition_key) record)

/-- `ParquetDataWriter._write_partition`, observed through the sink calls it
makes: the list of `(directory, records)` pairs written (one parquet file per
pair; filenames are fresh per call and not modelled).  `partition_key` is
tested for Python truthiness, so an empty-string key falls back to the table
root exactly as `None` does. -/
def write_partition (full_output_path : String) (partition_by : Option String)
    (data : List Record) (partition_key : Option String) : List (String × List Record) :=
  if data.isEmpty then []
  else
    let partition_path :=
      if optStrTruthy partition_key then
        full_output_path ++ "/" ++ (partition_by.getD "") ++ "=" ++ (partition_key.getD "")
      else full_output_path
    [(partition_path, data)]

/-- `ParquetDataWriter.write`, observed through the sink calls it makes, in
order. -/
def write (alnum : Char → Bool) (loads : String → Option PyVal)
    (full_output_path : String) (partition_by partition_key_extractor : Option String)
    (data : List Record) : Except PyExc (List (String × List Record)) :=
  if data.isEmpty then Except.ok []
  else if optStrTruthy partition_by then
    match partitionGroupsGo alnum loads partition_by partition_key_extractor data [] with
    | Except.error e => Except.error e
    | Except.ok partitions =>
      Except.ok ((partitions.map
        (fun g => write_partition full_output_path partition_by g.2 (Option.some g.1))).flatten)
  else
    Except.ok (write_partition full_output_path partition_by data Option.none)

/-!  The metrics reporter.  Rows of a parquet metrics file are abstract
(`Row`); the filesystem the reporter reads is a parameter. -/

/-- The filesystem as `MetricsReporter.load_metrics` sees it: directory
existence, the `*.parquet` glob of a directory (in glob order), and the rows
of a parquet file. -/
structure FileSystem (Row : Type) where
  dirExists : String → Bool
  parquetFiles : String → List String
  readParquet : String → List Row

/-- The state built by `MetricsReporter.__init__`: the metrics root and the
three tier paths derived from it. -/
structure MetricsReporter where
  metrics_path : String
  runs_path : String
  stages_path : String
  operators_path : String
  deriving DecidableEq

/-- `MetricsReporter.__init__(metrics_path)`. -/
def MetricsReporter.init (metrics_path : String) : MetricsReporter :=
  { metrics_path := metrics_path
    runs_path := metrics_path ++ "/runs"
    stages_path := metrics_path ++ "/stages"
    operators_path := metrics_path ++ "/operators" }

/-- `MetricsReporter.load_metrics`, one tier: `None` unless the directory
exists and holds at least one parquet file, else the `pd.concat` (row
concatenation, in file order) of all the files. -/
def loadTier {Row : Type} (fs : FileSystem Row) (path : String) : Option (List Row) :=
  if fs.dirExists path then
    let files := fs.parquetFiles path
    if files.isEmpty then Option.none
    else Option.some ((files.map fs.readParquet).flatten)
  else Option.none

/-- `MetricsReporter.load_metrics`: the `(run_df, stage_df, operator_df)`
triple. -/
def MetricsReporter.load_metrics {Row : Type} (self : MetricsReporter) (fs : FileSystem Row) :
    Option (List Row) × Option (List Row) × Option (List Row) :=
  (loadTier fs self.runs_path, loadTier fs self.stages_path, loadTier fs self.operators_path)

/-- Per the spec's words: the rows of a metrics tier are "unioned by readers
across all files" found in the tier's directory; a missing directory or an
empty glob yields no frame.  Stated independently of `load_metrics` to be
compared with it. -/
def tierUnionSpec {Row : Type} (fs : FileSystem Row) (path : String) : Option (List Row) :=
  if fs.dirExists path ∧ fs.parquetFiles path ≠ [] then
    Option.some ((fs.parquetFiles path).map fs.readParquet).flatten
  else Option.none

/-- The rendered report, abstracted to which renderer produced it and from
which frames.  `charts` is the plotly path of `_generate_html`; `simple` is
`_generate_simple_html` (the HTML strings themselves are glue the claims do
not inspect). -/
inductive Rendered (Frame : Type) : Type where
  | charts (run_df stage_df operator_df : Option Frame) : Rendered Frame
  | simple (run_df stage_df operator_df : Option Frame) : Rendered Frame
  deriving DecidableEq

/-- `MetricsReporter._generate_html`.  `plotly_available` is the outcome of
the `try: import plotly` probe, which the source runs inside this function at
each call; on failure it returns `self._generate_simple_html(...)`. -/
def MetricsReporter.generate_html {Frame : Type} (_self : MetricsReporter)
    (plotly_available : Bool) (run_df stage_df operator_df : Option Frame) : Rendered Frame :=
  if plotly_available then Rendered.charts run_df stage_df operator_df
  else Rendered.simple run_df stage_df operator_df

/-! ### Helper lemmas -/

/-- Sanitizing a single character twice is the same as sanitizing it once:
the output is always an allowed character. -/
theorem sanitizeChar_idem (alnum : Char → Bool) (c : Char) :
    sanitizeChar alnum (sanitizeChar alnum c) = sanitizeChar alnum c := by
  unfold sanitizeChar
  by_cases h : (alnum c || decide (c = '-') || decide (c = '_')) = true
  · simp [h]
  · simp [h]

/-! ### Claims -/

/-- C2: the sanitization applied in `ParquetDataWriter.write` maps each
character to itself if it is alphanumeric or one of `-` and `_`, and to `_`
otherwise; `"a/b c"` sanitizes to `"a_b_c"`, and any input consisting only of
allowed characters is unchanged. -/
theorem sanitize_charwise_spec (alnum : Char → Bool) (s : String) :
    (sanitizeKey alnum s).data =
      s.data.map (fun c => if alnum c || c = '-' || c = '_' then c else '_')
  ∧ sanitizeKey Char.isAlphanum "a/b c" = "a_b_c"
  ∧ (∀ t : String, (∀ c ∈ t.data, alnum c = true ∨ c = '-' ∨ c = '_') →
      sanitizeKey alnum t = t) := by
  refine ⟨rfl, by decide, ?_⟩
  intro t ht
  cases t with
  | mk l =>
    show String.mk (l.map (sanitizeChar alnum)) = String.mk l
    have : l.map (sanitizeChar alnum) = l.map id := by
      apply List.map_congr_left
      intro c hc
      rcases ht c hc with h | h | h
      · simp [sanitizeChar, h]
      · simp [sanitizeChar, h]
      · simp [sanitizeChar, h]
    rw [this, List.map_id]

/-- C2 witness: the sanitization evaluated at concrete inputs. -/
theorem sanitize_charwise_spec_witness :
    sanitizeKey Char.isAlphanum "a/b c" = "a_b_c"
  ∧ sanitizeKey Char.isAlphanum "abc-_19" = "abc-_19" :=
  ⟨(sanitize_charwise_spec Char.isAlphanum "").2.1,
   (sanitize_charwise_spec Char.isAlphanum "").2.2 "abc-_19" (by decide)⟩

/-- C3: the partition-key sanitization is idempotent. -/
theorem sanitizeKey_idempotent (alnum : Char → Bool) (s : String) :
    sanitizeKey alnum (sanitizeKey alnum s) = sanitizeKey alnum s := by
  unfold sanitizeKey
  show String.mk ((s.data.map (sanitizeChar alnum)).map (sanitizeChar alnum)) = _
  rw [List.map_map]
  congr 1
  apply List.map_congr_left
  intro c _
  exact sanitizeChar_idem alnum c

/-- C10: `write` on the empty list makes no sink call, creates no partition
directory and touches no state; `_write_partition` on the empty list writes
nothing. -/
theorem write_empty_noop (alnum : Char → Bool) (loads : String → Option PyVal)
    (out : String) (pb ex pk : Option String) :
    write alnum loads out pb ex [] = Except.ok []
  ∧ write_partition out pb [] pk = [] :=
  ⟨rfl, rfl⟩

/-- C7: `load_metrics` discovers the three tiers at `runs/`, `stages/` and
`operators/` under the metrics root, returns per tier the row concatenation of
all parquet files found there, and returns `None` for a tier whose directory
is missing or holds no files. -/
theorem load_metrics_directory_convention (Row : Type) (fs : FileSystem Row) (root : String) :
    (MetricsReporter.init root).load_metrics fs =
      (tierUnionSpec fs (root ++ "/runs"), tierUnionSpec fs (root ++ "/stages"),
        tierUnionSpec fs (root ++ "/operators"))
  ∧ (∀ p, fs.dirExists p = false → tierUnionSpec fs p = Option.none)
  ∧ (∀ p, fs.parquetFiles p = [] → tierUnionSpec fs p = Option.none) := by
  have htier : ∀ p, loadTier fs p = tierUnionSpec fs p := by
    intro p
    unfold loadTier tierUnionSpec
    by_cases hd : fs.dirExists p
    · by_cases hf : fs.parquetFiles p = []
      · simp [hd, hf]
      · simp [hd, hf, List.isEmpty_iff]
    · simp [hd]
  refine ⟨?_, ?_, ?_⟩
  · show (loadTier fs (root ++ "/runs"), loadTier fs (root ++ "/stages"),
      loadTier fs (root ++ "/operators")) = _
    rw [htier, htier, htier]
  · intro p hp; simp [tierUnionSpec, hp]
  · intro p hp; simp [tierUnionSpec, hp]

/-- C7 witness: `load_metrics` evaluated on a concrete two-file filesystem
missing the `operators/` directory. -/
theorem load_metrics_directory_convention_witness :
    (MetricsReporter.init "m").load_metrics
        { dirExists := fun p => decide (p = "m/runs" ∨ p = "m/stages")
          parquetFiles := fun p => if p = "m/runs" then ["m/runs/a.parquet", "m/runs/b.parquet"] else []
          readParquet := fun f => if f = "m/runs/a.parquet" then [10] else [20] }
      = (Option.some [10, 20], Option.none, (Option.none : Option (List Nat))) := by
  rw [(load_metrics_directory_convention Nat _ "m").1]
  decide

/-- C8 counterexample: availability of the charting dependency is probed
inside `_generate_html` at each call, not at startup.  Two calls on the very
same reporter state (built by `__init__`, which stores only the tier paths and
no renderer selection) pick different renderer implementations depending on
the per-call probe outcome — impossible if the selection were fixed at
startup. -/
theorem generate_html_midfunction_counterexample :
    MetricsReporter.init "metrics" = MetricsReporter.init "metrics"
  ∧ @MetricsReporter.generate_html Nat (MetricsReporter.init "metrics") true
        (Option.some 1) Option.none Option.none
      ≠ @MetricsReporter.generate_html Nat (MetricsReporter.init "metrics") false
        (Option.some 1) Option.none Option.none :=
  ⟨rfl, by decide⟩

/-- C8 (amended): when the charting dependency is absent, `_generate_html`
returns the `_generate_simple_html` fallback instead of failing; the renderer
is selected by the `try: import plotly` probe executed inside
`_generate_html` at each call (mid-function), while `__init__` stores only
the metrics root and the three tier paths, no renderer selection. -/
theorem generate_html_fallback_selection {Frame : Type} (self : MetricsReporter)
    (run_df stage_df operator_df : Option Frame) :
    MetricsReporter.generate_html self false run_df stage_df operator_df
        = Rendered.simple run_df stage_df operator_df
  ∧ MetricsReporter.generate_html self true run_df stage_df operator_df
        = Rendered.charts run_df stage_df operator_df
  ∧ (∀ p, MetricsReporter.init p =
      { metrics_path := p, runs_path := p ++ "/runs", stages_path := p ++ "/stages",
        operators_path := p ++ "/operators" }) :=
  ⟨rfl, rfl, fun _ => rfl⟩

/-- A value tests `isNone` exactly when it is Python `None`. -/
theorem PyVal.isNone_iff (v : PyVal) : v.isNone = true ↔ v = PyVal.none := by
  cases v <;> simp [PyVal.isNone]

/-- The walk loop of `_extract_partition_key` never lets an exception escape:
both exceptions its `try` block can raise are caught by the `except` clause. -/
theorem extractGo_ok (loads : String → Option PyVal) :
    ∀ (parts : List String) (value : PyVal), ∃ s, extractGo loads parts value = Except.ok s := by
  intro parts
  induction parts with
  | nil => intro value; exact ⟨_, rfl⟩
  | cons part rest ih =>
    intro value
    cases value with
    | none => exact ⟨_, rfl⟩
    | bool b => exact ⟨_, rfl⟩
    | int n => exact ⟨_, rfl⟩
    | list xs => exact ⟨_, rfl⟩
    | dict d =>
      simp only [extractGo]
      cases hdv : dictGet d part with
      | none => exact ⟨_, rfl⟩
      | bool b => exact ih _
      | int n => exact ih _
      | str t => exact ih _
      | list xs => exact ih _
      | dict d2 => exact ih _
    | str s =>
      simp only [extractGo]
      cases htr : tryParseGet loads s part with
      | error e => cases e with
        | jsonDecodeError => exact ⟨_, rfl⟩
        | attributeError => exact ⟨_, rfl⟩
      | ok v => cases v with
        | none => exact ⟨_, rfl⟩
        | bool b => exact ih _
        | int n => exact ih _
        | str t => exact ih _
        | list xs => exact ih _
        | dict d2 => exact ih _

/-- `_extract_partition_key` always returns a string. -/
theorem extract_ok (loads : String → Option PyVal) (pb ex : Option String) (record : Record) :
    ∃ s, extract_partition_key loads pb ex record = Except.ok s := by
  unfold extract_partition_key
  by_cases hpb : optStrTruthy pb
  · by_cases hex : optStrTruthy ex
    · simp only [hpb, hex, Bool.not_true, Bool.false_eq_true, if_false, if_true]
      exact extractGo_ok loads _ _
    · simp only [hpb, hex, Bool.not_true, Bool.false_eq_true, if_false]
      cases hdv : dictGet record (pb.getD "") with
      | none => exact ⟨_, rfl⟩
      | bool b => exact ⟨_, rfl⟩
      | int n => exact ⟨_, rfl⟩
      | str t => exact ⟨_, rfl⟩
      | list xs => exact ⟨_, rfl⟩
      | dict d => exact ⟨_, rfl⟩
  · simp [hpb]

/-- `_extract_partition_key` agrees with its plain-string reading `rawKey`
(the `error` arm of `rawKey` is dead). -/
theorem extract_eq_ok (loads : String → Option PyVal) (pb ex : Option String) (record : Record) :
    extract_partition_key loads pb ex record = Except.ok (rawKey loads pb ex record) := by
  obtain ⟨s, hs⟩ := extract_ok loads pb ex record
  rw [rawKey, hs]

/-- C5: `_extract_partition_key` is a pure, total function: for every record
and every configuration it terminates with a returned string and never lets
an exception escape, and so does its path-walking loop at every intermediate
value. -/
theorem extract_partition_key_total (loads : String → Option PyVal)
    (partition_by partition_key_extractor : Option String) (record : Record) :
    (∃ s, extract_partition_key loads partition_by partition_key_extractor record = Except.ok s)
  ∧ (∀ parts value, ∃ s, extractGo loads parts value = Except.ok s) :=
  ⟨extract_ok loads partition_by partition_key_extractor record,
   fun parts value => extractGo_ok loads parts value⟩

/-- C1: with a partition column and a dotted extractor path configured,
`_extract_partition_key` walks the path from the record, and every way the
walk can fail to resolve — the segment is absent from the mapping or mapped
to `None`, the string value does not parse, the string parses to a
non-mapping, the value is neither a mapping nor a string — yields the
sentinel `"unknown"`; no failure raises or fails the batch. -/
theorem extract_unknown_on_unresolved (loads : String → Option PyVal)
    (pb ex : String) (hpb : pb ≠ "") (hex : ex ≠ "") (record : Record) :
    (extract_partition_key loads (Option.some pb) (Option.some ex) record
        = extractGo loads (splitDot ex) (PyVal.dict record))
  ∧ (∀ (part : String) (rest : List String) (d : List (String × PyVal)),
      (dictGet d part).isNone = true →
      extractGo loads (part :: rest) (PyVal.dict d) = Except.ok "unknown")
  ∧ (∀ (part : String) (rest : List String) (s : String),
      loads s = Option.none →
      extractGo loads (part :: rest) (PyVal.str s) = Except.ok "unknown")
  ∧ (∀ (part : String) (rest : List String) (s : String) (v : PyVal),
      loads s = Option.some v → (∀ d, v ≠ PyVal.dict d) →
      extractGo loads (part :: rest) (PyVal.str s) = Except.ok "unknown")
  ∧ (∀ (part : String) (rest : List String) (v : PyVal),
      (∀ d, v ≠ PyVal.dict d) → (∀ s, v ≠ PyVal.str s) →
      extractGo loads (part :: rest) v = Except.ok "unknown")
  ∧ (∃ s, extract_partition_key loads (Option.some pb) (Option.some ex) record
        = Except.ok s) := by
  have hpb' : pb.isEmpty = false := by
    rw [Bool.eq_false_iff]
    simp [String.isEmpty_iff, hpb]
  have hex' : ex.isEmpty = false := by
    rw [Bool.eq_false_iff]
    simp [String.isEmpty_iff, hex]
  refine ⟨?_, ?_, ?_, ?_, ?_, extract_ok loads _ _ record⟩
  · simp [extract_partition_key, optStrTruthy, hpb', hex']
  · intro part rest d hnone
    rw [PyVal.isNone_iff] at hnone
    simp only [extractGo]
    rw [hnone]
  · intro part rest s hls
    simp only [extractGo, tryParseGet, json_loads, hls]
  · intro part rest s v hls hv
    simp only [extractGo, tryParseGet, json_loads, hls]
    cases v with
    | dict d => exact absurd rfl (hv d)
    | none => rfl
    | bool b => rfl
    | int n => rfl
    | str t => rfl
    | list xs => rfl
  · intro part rest v hd hs
    cases v with
    | dict d => exact absurd rfl (hd d)
    | str t => exact absurd rfl (hs t)
    | none => rfl
    | bool b => rfl
    | int n => rfl
    | list xs => rfl

/-- C1 witness: the theorem applied at a concrete configuration and record;
an `int`-valued segment resolves to `"unknown"`. -/
theorem extract_unknown_on_unresolved_witness :
    extractGo (fun _ => Option.none) ["b"] (PyVal.int 3) = Except.ok "unknown" :=
  (extract_unknown_on_unresolved (fun _ => Option.none) "op" "x"
    (by decide) (by decide) []).2.2.2.2.1 "b" [] (PyVal.int 3)
    (fun d => by simp) (fun s => by simp)

/-- C4: when the current value at a segment is a string, the walk parses it
as JSON and applies the same segment to the parsed structure; in particular,
with extractor path `"_rejection_details.operator"` and a record whose
`_rejection_details` field holds the JSON encoding of a mapping with an
`operator` key, the extracted key is that mapping's `operator` value. -/
theorem extract_reparses_string_segment (loads : String → Option PyVal)
    (part : String) (rest : List String) (s : String) (d : List (String × PyVal))
    (hs : loads s = Option.some (PyVal.dict d)) :
    (extractGo loads (part :: rest) (PyVal.str s) =
      (match dictGet d part with
       | PyVal.none => Except.ok "unknown"
       | v => extractGo loads rest v))
  ∧ (∀ (record : Record) (name : String),
      dictGet record "_rejection_details" = PyVal.str s →
      dictGet d "operator" = PyVal.str name → name ≠ "" →
      extract_partition_key loads (Option.some "operator")
        (Option.some "_rejection_details.operator") record = Except.ok name) := by
  constructor
  · simp only [extractGo, tryParseGet, json_loads, hs, attrGet]
    cases hdv : dictGet d part <;> rfl
  · intro record name hrd hop hname
    have hname' : name.isEmpty = false := by
      rw [Bool.eq_false_iff]
      simp [String.isEmpty_iff, hname]
    have hsplit : splitDot "_rejection_details.operator" = ["_rejection_details", "operator"] := by
      decide
    have he1 : ("operator" : String).isEmpty = false := by decide
    have he2 : ("_rejection_details.operator" : String).isEmpty = false := by decide
    have h0 : extract_partition_key loads (Option.some "operator")
        (Option.some "_rejection_details.operator") record
        = extractGo loads ["_rejection_details", "operator"] (PyVal.dict record) := by
      simp [extract_partition_key, optStrTruthy, hsplit, he1, he2]
    rw [h0]
    simp only [extractGo]
    rw [hrd]
    simp only [tryParseGet, json_loads, hs, attrGet]
    rw [hop]
    simp [extractGo, pyTruthy, pyStr, hname']

/-- C4 witness: the theorem applied with a concrete parse oracle and record. -/
theorem extract_reparses_string_segment_witness :
    extract_partition_key
      (fun s => if s = "js" then Option.some (PyVal.dict [("operator", PyVal.str "img_filter")])
                else Option.none)
      (Option.some "operator") (Option.some "_rejection_details.operator")
      [("_rejection_details", PyVal.str "js")] = Except.ok "img_filter" :=
  (extract_reparses_string_segment
      (fun s => if s = "js" then Option.some (PyVal.dict [("operator", PyVal.str "img_filter")])
                else Option.none)
      "operator" [] "js" [("operator", PyVal.str "img_filter")] rfl).2
    [("_rejection_details", PyVal.str "js")] "img_filter" rfl rfl (by decide)

/-- C9: the two modes of `_extract_partition_key` map a resolved value to
`"unknown"` under different conditions.  In nested-extractor mode the fully
resolved value is tested for Python truthiness, so any falsy value (such as
`0`) becomes `"unknown"`; in direct-column mode only `None` (or an absent
key) becomes `"unknown"` and a falsy `0` becomes `"0"`; on the same resolved
value `0` the two modes therefore disagree. -/
theorem extract_two_modes_disagree (loads : String → Option PyVal)
    (pb : String) (hpb : pb ≠ "") (record : Record) :
    (∀ v : PyVal, extractGo loads [] v
        = Except.ok (if pyTruthy v then pyStr v else "unknown"))
  ∧ (extract_partition_key loads (Option.some pb) Option.none record
        = Except.ok (if (dictGet record pb).isNone then "unknown"
                     else pyStr (dictGet record pb)))
  ∧ (∀ loads2 : String → Option PyVal,
      extract_partition_key loads2 (Option.some "op") (Option.some "a.b")
        [("a", PyVal.dict [("b", PyVal.int 0)])] = Except.ok "unknown")
  ∧ extract_partition_key loads (Option.some "b") Option.none
      [("b", PyVal.int 0)] = Except.ok "0" := by
  have hpb' : pb.isEmpty = false := by
    rw [Bool.eq_false_iff]
    simp [String.isEmpty_iff, hpb]
  refine ⟨fun v => rfl, ?_, fun loads2 => rfl, rfl⟩
  simp only [extract_partition_key, optStrTruthy, hpb', Bool.not_false, if_false,
    Option.getD]
  cases hdv : dictGet record pb <;> rfl

/-- C9 witness: the theorem applied at a concrete column and record. -/
theorem extract_two_modes_disagree_witness :
    extract_partition_key (fun _ => Option.none) (Option.some "b") Option.none
      [("b", PyVal.int 0)] = Except.ok "0" :=
  (extract_two_modes_disagree (fun _ => Option.none) "b" (by decide) []).2.2.2

/-- The group stored under a key in the insertion-ordered `partitions` dict
(`[]` when the key is absent). -/
def groupOf (partitions : List (String × List Record)) (key : String) : List Record :=
  match partitions.find? (fun g => decide (g.1 = key)) with
  | Option.some g => g.2
  | Option.none => []

/-- `insertGroup` keeps the key sequence, appending the new key only when it
was absent. -/
theorem insertGroup_keys (acc : List (String × List Record)) (k : String) (r : Record) :
    (insertGroup acc k r).map Prod.fst =
      if acc.any (fun g => decide (g.1 = k)) then acc.map Prod.fst
      else acc.map Prod.fst ++ [k] := by
  unfold insertGroup
  by_cases h : acc.any (fun g => decide (g.1 = k)) = true
  · simp only [h, if_true]
    rw [List.map_map]
    apply List.map_congr_left
    intro g _
    by_cases hg : g.1 = k <;> simp [hg]
  · simp [h]

/-- `insertGroup` preserves distinctness of the keys. -/
theorem insertGroup_nodup (acc : List (String × List Record)) (k : String) (r : Record)
    (h : (acc.map Prod.fst).Nodup) : ((insertGroup acc k r).map Prod.fst).Nodup := by
  rw [insertGroup_keys]
  by_cases ha : acc.any (fun g => decide (g.1 = k)) = true
  · simpa [ha] using h
  · have hk : k ∉ acc.map Prod.fst := by
      intro hmem
      rcases List.mem_map.mp hmem with ⟨g, hg, hfst⟩
      exact ha (List.any_eq_true.mpr ⟨g, hg, by simp [hfst]⟩)
    simp [ha, List.nodup_append, h, hk]

/-- Effect of `insertGroup` on each key's group: the target key's group gains
the record at its end; every other group is unchanged. -/
theorem groupOf_insertGroup (acc : List (String × List Record)) (k : String) (r : Record)
    (k' : String) :
    groupOf (insertGroup acc k r) k' =
      if k' = k then groupOf acc k ++ [r] else groupOf acc k' := by
  unfold insertGroup groupOf
  by_cases ha : acc.any (fun g => decide (g.1 = k)) = true
  · simp only [ha, if_true]
    rw [List.find?_map]
    have hpf : ((fun g : String × List Record => decide (g.1 = k')) ∘
        (fun g : String × List Record => if g.1 = k then (g.1, g.2 ++ [r]) else g))
        = fun g : String × List Record => decide (g.1 = k') := by
      funext g
      by_cases hg : g.1 = k <;> simp [hg]
    rw [hpf]
    by_cases hk : k' = k
    · subst hk
      rcases List.any_eq_true.mp ha with ⟨g, hg, hgk⟩
      cases hf : acc.find? (fun g => decide (g.1 = k')) with
      | none =>
        rw [List.find?_eq_none] at hf
        exact absurd hgk (hf g hg)
      | some g0 =>
        have hg0 : g0.1 = k' := by simpa using List.find?_some hf
        simp [hg0]
    · cases hf : acc.find? (fun g => decide (g.1 = k')) with
      | none => simp [hk]
      | some g0 =>
        have hg0 : g0.1 = k' := by simpa using List.find?_some hf
        simp [hk, hg0]
  · simp only [ha, Bool.false_eq_true, if_false]
    rw [List.find?_append]
    by_cases hk : k' = k
    · subst hk
      have hfn : acc.find? (fun g => decide (g.1 = k')) = Option.none := by
        rw [List.find?_eq_none]
        intro g hg
        simp only [decide_eq_true_eq]
        intro hgk
        exact ha (List.any_eq_true.mpr ⟨g, hg, by simp [hgk]⟩)
      simp [hfn]
    · have hne : (fun g : String × List Record => decide (g.1 = k')) (k, [r]) = false := by
        simp [Ne.symm hk]
      cases hf : acc.find? (fun g => decide (g.1 = k')) with
      | none => simp [List.find?, hne, hk]
      | some g0 => simp [hf, hk]

/-- Under distinct keys, membership determines the group of a key. -/
theorem groupOf_of_mem (gs : List (String × List Record)) (k : String) (g : List Record)
    (h : (gs.map Prod.fst).Nodup) (hmem : (k, g) ∈ gs) : groupOf gs k = g := by
  induction gs with
  | nil => cases hmem
  | cons p rest ih =>
    rcases List.mem_cons.mp hmem with heq | htail
    · rw [← heq]
      simp [groupOf, List.find?]
    · have hk : k ∈ rest.map Prod.fst :=
        List.mem_map.mpr ⟨(k, g), htail, rfl⟩
      have hp1 : p.1 ≠ k := by
        intro hpk
        rw [List.map_cons, List.nodup_cons] at h
        exact h.1 (hpk ▸ hk)
      have hrest : (rest.map Prod.fst).Nodup := by
        rw [List.map_cons, List.nodup_cons] at h
        exact h.2
      unfold groupOf
      rw [List.find?_cons_of_neg _ (by simp [hp1])]
      exact ih hrest htail

/-- After `insertGroup`, the inserted key is present. -/
theorem insertGroup_key_mem (acc : List (String × List Record)) (k : String) (r : Record) :
    k ∈ (insertGroup acc k r).map Prod.fst := by
  rw [insertGroup_keys]
  by_cases ha : acc.any (fun g => decide (g.1 = k)) = true
  · rcases List.any_eq_true.mp ha with ⟨g, hg, hgk⟩
    simp only [ha, if_true]
    exact List.mem_map.mpr ⟨g, hg, by simpa using hgk⟩
  · simp [ha]

/-- `insertGroup` never removes a key. -/
theorem insertGroup_keys_mono (acc : List (String × List Record)) (k k' : String) (r : Record)
    (h : k' ∈ acc.map Prod.fst) : k' ∈ (insertGroup acc k r).map Prod.fst := by
  rw [insertGroup_keys]
  by_cases ha : acc.any (fun g => decide (g.1 = k)) = true
  · simpa [ha] using h
  · simp [ha, List.mem_append, h]

/-- The grouping loop preserves distinctness of keys. -/
theorem foldl_insert_nodup (keyf : Record → String) :
    ∀ (rs : List Record) (acc : List (String × List Record)),
      (acc.map Prod.fst).Nodup →
      ((rs.foldl (fun a r => insertGroup a (keyf r) r) acc).map Prod.fst).Nodup := by
  intro rs
  induction rs with
  | nil => intro acc h; simpa using h
  | cons r rest ih =>
    intro acc h
    rw [List.foldl_cons]
    exact ih _ (insertGroup_nodup acc (keyf r) r h)

/-- The group of each key after the loop: what it held before, followed by
the records of the batch carrying that key, in batch order. -/
theorem foldl_insert_groupOf (keyf : Record → String) (k : String) :
    ∀ (rs : List Record) (acc : List (String × List Record)),
      groupOf (rs.foldl (fun a r => insertGroup a (keyf r) r) acc) k
        = groupOf acc k ++ rs.filter (fun r => decide (keyf r = k)) := by
  intro rs
  induction rs with
  | nil => intro acc; simp
  | cons r rest ih =>
    intro acc
    rw [List.foldl_cons, ih, groupOf_insertGroup]
    by_cases hk : k = keyf r
    · rw [if_pos hk, List.filter_cons, if_pos (by simp [hk]), List.append_assoc,
        List.singleton_append, ← hk]
    · rw [if_neg hk, List.filter_cons, if_neg (by simp; exact fun h => hk h.symm)]

/-- The grouping loop never removes a key. -/
theorem foldl_insert_keys_mono (keyf : Record → String) :
    ∀ (rs : List Record) (acc : List (String × List Record)) (k' : String),
      k' ∈ acc.map Prod.fst →
      k' ∈ (rs.foldl (fun a r => insertGroup a (keyf r) r) acc).map Prod.fst := by
  intro rs
  induction rs with
  | nil => intro acc k' h; simpa using h
  | cons r rest ih =>
    intro acc k' h
    rw [List.foldl_cons]
    exact ih _ _ (insertGroup_keys_mono acc (keyf r) k' r h)

/-- After the loop, every processed record's key has a group. -/
theorem foldl_insert_key_mem (keyf : Record → String) :
    ∀ (rs : List Record) (acc : List (String × List Record)) (r : Record), r ∈ rs →
      keyf r ∈ (rs.foldl (fun a r => insertGroup a (keyf r) r) acc).map Prod.fst := by
  intro rs
  induction rs with
  | nil => intro acc r h; cases h
  | cons r0 rest ih =>
    intro acc r h
    rw [List.foldl_cons]
    rcases List.mem_cons.mp h with heq | htail
    · subst heq
      exact foldl_insert_keys_mono keyf rest _ _ (insertGroup_key_mem acc (keyf r) r)
    · exact ih _ _ htail

/-- `insertGroup` keeps every group non-empty. -/
theorem insertGroup_snd_ne_nil (acc : List (String × List Record)) (k : String) (r : Record)
    (h : ∀ p ∈ acc, p.2 ≠ []) : ∀ p ∈ insertGroup acc k r, p.2 ≠ [] := by
  intro p hp
  unfold insertGroup at hp
  by_cases ha : acc.any (fun g => decide (g.1 = k)) = true
  · rw [if_pos ha] at hp
    rcases List.mem_map.mp hp with ⟨g, hg, hfg⟩
    by_cases hgk : g.1 = k
    · rw [← hfg]
      simp [hgk]
    · rw [← hfg]
      simp only [hgk, if_false]
      exact h g hg
  · rw [if_neg ha] at hp
    rcases List.mem_append.mp hp with hin | hnew
    · exact h p hin
    · rw [List.mem_singleton.mp hnew]
      simp

/-- The grouping loop keeps every group non-empty. -/
theorem foldl_insert_snd_ne_nil (keyf : Record → String) :
    ∀ (rs : List Record) (acc : List (String × List Record)),
      (∀ p ∈ acc, p.2 ≠ []) →
      ∀ p ∈ rs.foldl (fun a r => insertGroup a (keyf r) r) acc, p.2 ≠ [] := by
  intro rs
  induction rs with
  | nil => intro acc h; simpa using h
  | cons r rest ih =>
    intro acc h
    rw [List.foldl_cons]
    exact ih _ (insertGroup_snd_ne_nil acc (keyf r) r h)

/-- Inserting a record adds exactly that record to the multiset of grouped
records (distinct keys: the update touches a single group). -/
theorem insertGroup_flatten_perm (acc : List (String × List Record)) (k : String) (r : Record)
    (h : (acc.map Prod.fst).Nodup) :
    ((insertGroup acc k r).map Prod.snd).flatten.Perm
      ((acc.map Prod.snd).flatten ++ [r]) := by
  unfold insertGroup
  by_cases ha : acc.any (fun g => decide (g.1 = k)) = true
  · rw [if_pos ha]
    rcases List.any_eq_true.mp ha with ⟨g, hg, hgk⟩
    have hgk' : g.1 = k := by simpa using hgk
    rcases List.append_of_mem hg with ⟨l1, l2, rfl⟩
    have hmid : g.1 ∉ l1.map Prod.fst ++ l2.map Prod.fst ∧
        (l1.map Prod.fst ++ l2.map Prod.fst).Nodup := by
      rw [List.map_append, List.map_cons, List.nodup_middle, List.nodup_cons] at h
      exact h
    have e1 : l1.map (fun g => if g.1 = k then (g.1, g.2 ++ [r]) else g) = l1 := by
      have : l1.map (fun g => if g.1 = k then (g.1, g.2 ++ [r]) else g) = l1.map id := by
        apply List.map_congr_left
        intro p hp
        have hp1 : p.1 ≠ k := by
          intro hpk
          exact hmid.1 (List.mem_append_left _
            (List.mem_map.mpr ⟨p, hp, hpk.trans hgk'.symm⟩))
        simp [hp1]
      rw [this, List.map_id]
    have e2 : l2.map (fun g => if g.1 = k then (g.1, g.2 ++ [r]) else g) = l2 := by
      have : l2.map (fun g => if g.1 = k then (g.1, g.2 ++ [r]) else g) = l2.map id := by
        apply List.map_congr_left
        intro p hp
        have hp1 : p.1 ≠ k := by
          intro hpk
          exact hmid.1 (List.mem_append_right _
            (List.mem_map.mpr ⟨p, hp, hpk.trans hgk'.symm⟩))
        simp [hp1]
      rw [this, List.map_id]
    rw [List.map_append, List.map_cons, e1, e2, if_pos hgk']
    rw [List.map_append, List.map_cons, List.flatten_append, List.flatten_cons,
      List.map_append, List.map_cons, List.flatten_append, List.flatten_cons]
    have step1 : (l1.map Prod.snd).flatten ++ ((g.2 ++ [r]) ++ (l2.map Prod.snd).flatten)
        = (l1.map Prod.snd).flatten ++ (g.2 ++ ([r] ++ (l2.map Prod.snd).flatten)) := by
      simp [List.append_assoc]
    have step2 : ((l1.map Prod.snd).flatten ++ (g.2 ++ (l2.map Prod.snd).flatten)) ++ [r]
        = (l1.map Prod.snd).flatten ++ (g.2 ++ ((l2.map Prod.snd).flatten ++ [r])) := by
      simp [List.append_assoc]
    rw [step1, step2]
    exact List.Perm.append_left _ (List.Perm.append_left _ List.perm_append_comm)
  · rw [if_neg ha]
    rw [List.map_append, List.flatten_append]
    simp

/-- The grouping loop adds exactly the processed records to the multiset of
grouped records. -/
theorem foldl_insert_flatten_perm (keyf : Record → String) :
    ∀ (rs : List Record) (acc : List (String × List Record)),
      (acc.map Prod.fst).Nodup →
      ((rs.foldl (fun a r => insertGroup a (keyf r) r) acc).map Prod.snd).flatten.Perm
        ((acc.map Prod.snd).flatten ++ rs) := by
  intro rs
  induction rs with
  | nil => intro acc _; simp
  | cons r rest ih =>
    intro acc h
    rw [List.foldl_cons]
    refine (ih _ (insertGroup_nodup acc (keyf r) r h)).trans ?_
    refine ((insertGroup_flatten_perm acc (keyf r) r h).append_right rest).trans ?_
    rw [List.append_assoc, List.singleton_append]

/-- The grouping loop of `write` equals a pure fold of `insertGroup` over the
batch (extraction never fails, so the `error` propagation is dead). -/
theorem partitionGroupsGo_eq_foldl (alnum : Char → Bool) (loads : String → Option PyVal)
    (pb ex : Option String) :
    ∀ (rs : List Record) (acc : List (String × List Record)),
      partitionGroupsGo alnum loads pb ex rs acc
        = Except.ok (rs.foldl
            (fun a r => insertGroup a (safeKey alnum loads pb ex r) r) acc) := by
  intro rs
  induction rs with
  | nil => intro acc; rfl
  | cons r rest ih =>
    intro acc
    rw [List.foldl_cons]
    show (match extract_partition_key loads pb ex r with
      | Except.error e => Except.error e
      | Except.ok partition_key =>
        partitionGroupsGo alnum loads pb ex rest
          (insertGroup acc (sanitizeKey alnum partition_key) r)) = _
    rw [extract_eq_ok loads pb ex r]
    exact ih _

/-- With non-empty groups, `write`'s per-group `_write_partition` calls each
write exactly one `(directory, records)` pair; an empty sanitized key falls
back to the table root. -/
theorem write_partition_calls (out pb : String) :
    ∀ gs : List (String × List Record), (∀ p ∈ gs, p.2 ≠ []) →
      (gs.map (fun g => write_partition out (Option.some pb) g.2 (Option.some g.1))).flatten
        = gs.map (fun p =>
            ((if p.1 = "" then out else out ++ "/" ++ pb ++ "=" ++ p.1), p.2)) := by
  intro gs
  induction gs with
  | nil => intro _; rfl
  | cons p rest ih =>
    intro h
    have hp : p.2 ≠ [] := h p (List.mem_cons_self p rest)
    have hne : p.2.isEmpty = false := by
      rw [Bool.eq_false_iff]
      simpa [List.isEmpty_iff] using hp
    rw [List.map_cons, List.map_cons, List.flatten_cons, ih (fun q hq => h q (List.mem_cons_of_mem p hq))]
    by_cases hk : p.1 = ""
    · simp [write_partition, optStrTruthy, hne, hk, show ("" : String).isEmpty = true from rfl]
    · have hke : p.1.isEmpty = false := by
        rw [Bool.eq_false_iff]
        simp [String.isEmpty_iff, hk]
      simp [write_partition, optStrTruthy, hne, hk, hke]

/-- C6 counterexample: a record whose direct-mode partition value is the
empty string gets sanitized key `""`, and `_write_partition` (which tests the
key for Python truthiness) then hands its group to the sink at the table
root, not under a directory named `partition_by=sanitized-key`. -/
theorem write_empty_key_dir_counterexample :
    write Char.isAlphanum (fun _ => Option.none) "out" (Option.some "op") Option.none
        [[("op", PyVal.str "")]]
      = Except.ok [("out", [[("op", PyVal.str "")]])]
  ∧ ("out" : String) ≠ "out" ++ "/" ++ "op" ++ "=" ++
      safeKey Char.isAlphanum (fun _ => Option.none) (Option.some "op") Option.none
        [("op", PyVal.str "")] := by
  constructor
  · rfl
  · decide

/-- C6 (amended): with partitioning enabled and a non-empty batch, `write`
groups records by sanitized partition key: the keys are distinct, each key's
group is exactly the input records carrying that key in input order (so each
record lands in exactly one group, the group of its own key), the groups
jointly are a permutation of the input, and each group is handed to the sink
under the directory `partition_by=key` — except that a group whose sanitized
key is the empty string goes to the table root directory instead. -/
theorem write_partition_grouping (alnum : Char → Bool) (loads : String → Option PyVal)
    (out pb : String) (hpb : pb ≠ "") (ex : Option String)
    (data : List Record) (hdata : data ≠ []) :
    ∃ gs : List (String × List Record),
      partitionGroupsGo alnum loads (Option.some pb) ex data [] = Except.ok gs
    ∧ (gs.map Prod.fst).Nodup
    ∧ (∀ p ∈ gs, p.2 = data.filter
        (fun r => decide (safeKey alnum loads (Option.some pb) ex r = p.1)))
    ∧ (∀ r ∈ data, safeKey alnum loads (Option.some pb) ex r ∈ gs.map Prod.fst)
    ∧ ((gs.map Prod.snd).flatten).Perm data
    ∧ write alnum loads out (Option.some pb) ex data
        = Except.ok (gs.map (fun p =>
            ((if p.1 = "" then out else out ++ "/" ++ pb ++ "=" ++ p.1), p.2))) := by
  refine ⟨data.foldl (fun a r => insertGroup a (safeKey alnum loads (Option.some pb) ex r) r) [],
    partitionGroupsGo_eq_foldl alnum loads (Option.some pb) ex data [], ?_, ?_, ?_, ?_, ?_⟩
  · exact foldl_insert_nodup _ data [] (by simp)
  · intro p hp
    have hnd := foldl_insert_nodup (safeKey alnum loads (Option.some pb) ex) data [] (by simp)
    have hgr := groupOf_of_mem _ p.1 p.2 hnd (by simpa using hp)
    rw [← hgr, foldl_insert_groupOf]
    simp [groupOf]
  · intro r hr
    exact foldl_insert_key_mem _ data [] r hr
  · simpa using foldl_insert_flatten_perm _ data [] (by simp)
  · have hde : data.isEmpty = false := by
      rw [Bool.eq_false_iff]
      simpa [List.isEmpty_iff] using hdata
    have hpbe : pb.isEmpty = false := by
      rw [Bool.eq_false_iff]
      simp [String.isEmpty_iff, hpb]
    have hnn := foldl_insert_snd_ne_nil (safeKey alnum loads (Option.some pb) ex) data [] (by simp)
    simp only [write, hde, Bool.false_eq_true, if_false, optStrTruthy, hpbe, Bool.not_false,
      if_true, partitionGroupsGo_eq_foldl]
    rw [write_partition_calls out pb _ hnn]

/-- C6 witness: the amended theorem applied to a concrete two-key batch. -/
theorem write_partition_grouping_witness :
    ∃ gs : List (String × List Record),
      partitionGroupsGo Char.isAlphanum (fun _ => Option.none) (Option.some "op") Option.none
          [[("op", PyVal.str "a")], [("op", PyVal.str "b")]] [] = Except.ok gs
    ∧ (gs.map Prod.fst).Nodup
    ∧ (∀ p ∈ gs, p.2 = [[("op", PyVal.str "a")], [("op", PyVal.str "b")]].filter
        (fun r => decide (safeKey Char.isAlphanum (fun _ => Option.none) (Option.some "op")
          Option.none r = p.1)))
    ∧ (∀ r ∈ [[("op", PyVal.str "a")], [("op", PyVal.str "b")]],
        safeKey Char.isAlphanum (fun _ => Option.none) (Option.some "op") Option.none r
          ∈ gs.map Prod.fst)
    ∧ ((gs.map Prod.snd).flatten).Perm [[("op", PyVal.str "a")], [("op", PyVal.str "b")]]
    ∧ write Char.isAlphanum (fun _ => Option.none) "out" (Option.some "op") Option.none
          [[("op", PyVal.str "a")], [("op", PyVal.str "b")]]
        = Except.ok (gs.map (fun p =>
            ((if p.1 = "" then "out" else "out" ++ "/" ++ "op" ++ "=" ++ p.1), p.2))) :=
  write_partition_grouping Char.isAlphanum (fun _ => Option.none) "out" "op" (by decide)
    Option.none [[("op", PyVal.str "a")], [("op", PyVal.str "b")]] (by simp)
